import Mathlib

/-!
Verification of the bulk2es ingest pipeline (src/output.rs, src/loader.rs,
src/main.rs) against its natural-language specification.

The Rust code is shallowly embedded: machine integers (`usize`) become `Nat`,
fallible or panicking code becomes `Option`, JSON values (`serde_json::Value`)
become an inductive `JsonVal`, and the external JSON line parser is a
parameter `parse : String → Option JMap` (parsing happens in the serde_json
library, outside this repository; only its result shape matters to the code
under verification).
-/

namespace Bulk2Es

/-- JSON values, mirroring `serde_json::Value` as used by `output.rs`.
Numbers are irrelevant to every verified property, so `Int` suffices. -/
inductive JsonVal where
  | null
  | bool (b : Bool)
  | num (n : Int)
  | str (s : String)
  | arr (elems : List JsonVal)
  | obj (fields : List (String × JsonVal))

/-- A parsed JSON object, mirroring `serde_json::Map<String, Value>`. -/
abbrev JMap := List (String × JsonVal)

/-- `Map::get`: look up a key in a parsed JSON object. -/
def mapGet (m : JMap) (k : String) : Option JsonVal :=
  (m.find? (fun p => p.1 = k)).map (fun p => p.2)

/-- `Value::as_str`: `Some` exactly on JSON strings. -/
def asStr : JsonVal → Option String
  | .str s => some s
  | _ => none

/-- `Value::as_bool`: `Some` exactly on JSON booleans. -/
def asBool : JsonVal → Option Bool
  | .bool b => some b
  | _ => none

/-- `Value::as_array`: `Some` exactly on JSON arrays. -/
def asArray : JsonVal → Option (List JsonVal)
  | .arr xs => some xs
  | _ => none

/-- `Value::as_object`: `Some` exactly on JSON objects. -/
def asObject : JsonVal → Option JMap
  | .obj m => some m
  | _ => none

/-- `value[key]` on a `serde_json::Value`: yields `Null` on a missing key or
a non-object receiver (`serde_json` index semantics used in `proceed_chunk`). -/
def jsonIndex (v : JsonVal) (k : String) : JsonVal :=
  match v with
  | .obj fields => (mapGet fields k).getD .null
  | _ => .null

/-- `Map::contains_key`. -/
def containsKey (m : JMap) (k : String) : Bool :=
  (m.find? (fun p => p.1 = k)).isSome

/-! ## Chunking (`slice::chunks`)

`Vec::chunks(chunk_size)` yields contiguous slices of length `chunk_size`,
the last one possibly shorter; it panics when `chunk_size = 0`.  The panic is
kept out of `chunksGo` (which is only meaningful for `0 < k`) and modelled at
the call site `close_chunks` below, exactly where the Rust code calls
`self.buffer.chunks(chunk_size)`. -/

/-- Fuel-indexed worker for `chunksOf`; the fuel is an upper bound on the
length of the list, so for `0 < k` the fuel never runs out. -/
def chunksGo (k : Nat) : Nat → List String → List (List String)
  | _, [] => []
  | 0, _ :: _ => []
  | Nat.succ fuel, x :: xs =>
      ((x :: xs).take k) :: chunksGo k fuel ((x :: xs).drop k)

/-- `l.chunks(k)` for `0 < k`: contiguous chunks of size `k`, last possibly
shorter. -/
def chunksOf (k : Nat) (l : List String) : List (List String) :=
  chunksGo k l.length l

/-- `⌈n / k⌉` on naturals, as used to count bulk submissions. -/
def ceilDiv (n k : Nat) : Nat := (n + k - 1) / k

/-- `ElasticsearchOutput::close`, chunking phase (`output.rs:80-91`):
`chunk_size` is `buffer.len()` when that is `≤ buffer_size`, else
`buffer_size` — i.e. `min (buffer.len) buffer_size`.  When `chunk_size = 0`
(in particular whenever the buffer is empty), `slice::chunks` panics:
modelled as `none`. -/
def close_chunks (buffer : List String) (buffer_size : Nat) :
    Option (List (List String)) :=
  let chunk_size := if buffer.length ≤ buffer_size then buffer.length else buffer_size
  if chunk_size = 0 then none else some (chunksOf chunk_size buffer)

/-! ## Bulk body construction (`proceed_chunk`, `output.rs:204-219`) -/

/-- The action line `json!({"index": {"_id": id}})`. -/
def actionLine (id : String) : JsonVal :=
  .obj [("index", .obj [("_id", .str id)])]

/-- The body-building loop of `proceed_chunk`: for each line, parse it as a
JSON object (panic on failure), take the `id_field_name` entry (panic when
missing), require it to be a string (panic otherwise), then push the action
line followed by the re-serialized document.  Panics are `none`. -/
def buildBody (parse : String → Option JMap) (idField : String) :
    List String → Option (List JsonVal)
  | [] => some []
  | d :: ds =>
    match parse d with
    | none => none
    | some m =>
      match mapGet m idField with
      | none => none
      | some v =>
        match asStr v with
        | none => none
        | some id =>
          (buildBody parse idField ds).map
            (fun rest => actionLine id :: JsonVal.obj m :: rest)

/-! ## Lemmas about chunking -/

theorem chunksGo_flatten (k : Nat) (hk : 0 < k) :
    ∀ (fuel : Nat) (l : List String), l.length ≤ fuel →
      (chunksGo k fuel l).flatten = l := by
  intro fuel
  induction fuel with
  | zero =>
    intro l hl
    cases l with
    | nil => simp [chunksGo]
    | cons x xs => simp at hl
  | succ n ih =>
    intro l hl
    cases l with
    | nil => simp [chunksGo]
    | cons x xs =>
      have hdrop : ((x :: xs).drop k).length ≤ n := by
        simp only [List.length_drop, List.length_cons]
        simp only [List.length_cons] at hl
        omega
      simp only [chunksGo, List.flatten_cons]
      rw [ih _ hdrop, List.take_append_drop]

theorem ceilDiv_zero (k : Nat) (hk : 0 < k) : ceilDiv 0 k = 0 := by
  unfold ceilDiv
  exact Nat.div_eq_of_lt (by omega)

theorem ceilDiv_of_le (n k : Nat) (hn : 0 < n) (hk : n ≤ k) : ceilDiv n k = 1 := by
  unfold ceilDiv
  have hk0 : 0 < k := by omega
  have e : n + k - 1 = (n - 1) + k := by omega
  rw [e, Nat.add_div_right _ hk0, Nat.div_eq_of_lt (by omega)]

theorem ceilDiv_sub (n k : Nat) (hn : 0 < n) (hk : 0 < k) :
    ceilDiv n k = 1 + ceilDiv (n - k) k := by
  rcases le_or_lt n k with h | h
  · rw [ceilDiv_of_le n k hn h]
    have e : n - k = 0 := by omega
    rw [e, ceilDiv_zero k hk]
  · unfold ceilDiv
    have e : n + k - 1 = ((n - k) + k - 1) + k := by omega
    rw [e, Nat.add_div_right _ hk]
    omega

theorem chunksGo_length (k : Nat) (hk : 0 < k) :
    ∀ (fuel : Nat) (l : List String), l.length ≤ fuel →
      (chunksGo k fuel l).length = ceilDiv l.length k := by
  intro fuel
  induction fuel with
  | zero =>
    intro l hl
    cases l with
    | nil => simp [chunksGo, ceilDiv_zero k hk]
    | cons x xs => simp at hl
  | succ n ih =>
    intro l hl
    cases l with
    | nil => simp [chunksGo, ceilDiv_zero k hk]
    | cons x xs =>
      have hdrop : ((x :: xs).drop k).length ≤ n := by
        simp only [List.length_drop, List.length_cons]
        simp only [List.length_cons] at hl
        omega
      simp only [chunksGo, List.length_cons]
      rw [ih _ hdrop]
      simp only [List.length_drop, List.length_cons]
      rw [ceilDiv_sub (xs.length + 1) k (by omega) hk]
      omega

theorem chunksGo_mem (k : Nat) (hk : 0 < k) :
    ∀ (fuel : Nat) (l : List String), l.length ≤ fuel →
      ∀ c ∈ chunksGo k fuel l, 0 < c.length ∧ c.length ≤ k := by
  intro fuel
  induction fuel with
  | zero =>
    intro l hl c hc
    cases l with
    | nil => simp [chunksGo] at hc
    | cons x xs => simp at hl
  | succ n ih =>
    intro l hl c hc
    cases l with
    | nil => simp [chunksGo] at hc
    | cons x xs =>
      have hdrop : ((x :: xs).drop k).length ≤ n := by
        simp only [List.length_drop, List.length_cons]
        simp only [List.length_cons] at hl
        omega
      simp only [chunksGo, List.mem_cons] at hc
      rcases hc with hc | hc
      · subst hc
        constructor
        · simp only [List.length_take, List.length_cons]
          omega
        · simp only [List.length_take]
          omega
      · exact ih _ hdrop c hc

theorem chunksGo_dropLast (k : Nat) (hk : 0 < k) :
    ∀ (fuel : Nat) (l : List String), l.length ≤ fuel →
      ∀ c ∈ (chunksGo k fuel l).dropLast, c.length = k := by
  intro fuel
  induction fuel with
  | zero =>
    intro l hl c hc
    cases l with
    | nil => simp [chunksGo] at hc
    | cons x xs => simp at hl
  | succ n ih =>
    intro l hl c hc
    cases l with
    | nil => simp [chunksGo] at hc
    | cons x xs =>
      have hdrop : ((x :: xs).drop k).length ≤ n := by
        simp only [List.length_drop, List.length_cons]
        simp only [List.length_cons] at hl
        omega
      simp only [chunksGo] at hc
      cases hrest : chunksGo k n ((x :: xs).drop k) with
      | nil =>
        rw [hrest] at hc
        simp at hc
      | cons r rs =>
        rw [hrest] at hc
        rw [List.dropLast_cons_of_ne_nil (by simp)] at hc
        rcases List.mem_cons.mp hc with hc | hc
        · subst hc
          have hne : (x :: xs).drop k ≠ [] := by
            intro hnil
            rw [hnil] at hrest
            simp [chunksGo] at hrest
          have hlen : k < (x :: xs).length := by
            by_contra hle
            push_neg at hle
            exact hne (List.drop_eq_nil_of_le hle)
          simp only [List.length_take]
          omega
        · rw [← hrest] at hc
          exact ih _ hdrop c hc

theorem chunksOf_flatten (k : Nat) (hk : 0 < k) (l : List String) :
    (chunksOf k l).flatten = l :=
  chunksGo_flatten k hk l.length l (Nat.le_refl _)

theorem chunksOf_length (k : Nat) (hk : 0 < k) (l : List String) :
    (chunksOf k l).length = ceilDiv l.length k :=
  chunksGo_length k hk l.length l (Nat.le_refl _)

theorem chunksOf_mem (k : Nat) (hk : 0 < k) (l : List String) :
    ∀ c ∈ chunksOf k l, 0 < c.length ∧ c.length ≤ k :=
  chunksGo_mem k hk l.length l (Nat.le_refl _)

theorem chunksOf_dropLast (k : Nat) (hk : 0 < k) (l : List String) :
    ∀ c ∈ (chunksOf k l).dropLast, c.length = k :=
  chunksGo_dropLast k hk l.length l (Nat.le_refl _)

theorem buildBody_length (parse : String → Option JMap) (idField : String) :
    ∀ (chunk : List String) (body : List JsonVal),
      buildBody parse idField chunk = some body →
      body.length = 2 * chunk.length := by
  intro chunk
  induction chunk with
  | nil =>
    intro body hb
    simp only [buildBody, Option.some.injEq] at hb
    subst hb
    simp
  | cons d ds ih =>
    intro body hb
    cases hp : parse d with
    | none => simp [buildBody, hp] at hb
    | some m =>
      simp only [buildBody, hp] at hb
      cases hg : mapGet m idField with
      | none => simp [hg] at hb
      | some v =>
        simp only [hg] at hb
        cases hs : asStr v with
        | none => simp [hs] at hb
        | some id =>
          simp only [hs] at hb
          rcases Option.map_eq_some'.mp hb with ⟨rest, hrest, hbody⟩
          subst hbody
          simp only [List.length_cons, ih rest hrest]
          omega

theorem asStr_eq : ∀ {v : JsonVal} {id : String},
    asStr v = some id → v = JsonVal.str id := by
  intro v id h
  cases v with
  | str s => simp only [asStr, Option.some.injEq] at h; rw [h]
  | null => simp [asStr] at h
  | bool b => simp [asStr] at h
  | num n => simp [asStr] at h
  | arr es => simp [asStr] at h
  | obj fs => simp [asStr] at h

theorem asBool_eq : ∀ {v : JsonVal} {b : Bool},
    asBool v = some b → v = JsonVal.bool b := by
  intro v b h
  cases v with
  | bool c => simp only [asBool, Option.some.injEq] at h; rw [h]
  | null => simp [asBool] at h
  | str s => simp [asBool] at h
  | num n => simp [asBool] at h
  | arr es => simp [asBool] at h
  | obj fs => simp [asBool] at h

theorem asArray_eq : ∀ {v : JsonVal} {xs : List JsonVal},
    asArray v = some xs → v = JsonVal.arr xs := by
  intro v xs h
  cases v with
  | arr es => simp only [asArray, Option.some.injEq] at h; rw [h]
  | null => simp [asArray] at h
  | str s => simp [asArray] at h
  | num n => simp [asArray] at h
  | bool b => simp [asArray] at h
  | obj fs => simp [asArray] at h

/-- In a successfully built bulk body, document `i` contributes the entries
at positions `2·i` (its action line, carrying its string id) and `2·i + 1`
(its re-serialized map). -/
theorem buildBody_drop (parse : String → Option JMap) (idField : String) :
    ∀ (chunk : List String) (body : List JsonVal),
      buildBody parse idField chunk = some body →
      ∀ (i : Nat) (h : i < chunk.length),
        ∃ m id tail, parse (chunk.get ⟨i, h⟩) = some m ∧
          mapGet m idField = some (JsonVal.str id) ∧
          body.drop (2 * i) = actionLine id :: JsonVal.obj m :: tail := by
  intro chunk
  induction chunk with
  | nil =>
    intro body hb i h
    simp at h
  | cons d ds ih =>
    intro body hb i h
    cases hp : parse d with
    | none => simp [buildBody, hp] at hb
    | some m =>
      simp only [buildBody, hp] at hb
      cases hg : mapGet m idField with
      | none => simp [hg] at hb
      | some v =>
        simp only [hg] at hb
        cases hs : asStr v with
        | none => simp [hs] at hb
        | some id =>
          simp only [hs] at hb
          rcases Option.map_eq_some'.mp hb with ⟨rest, hrest, hbody⟩
          subst hbody
          cases i with
          | zero =>
            refine ⟨m, id, rest, hp, ?_, rfl⟩
            rw [asStr_eq hs] at hg
            exact hg
          | succ n =>
            have h' : n < ds.length := by
              simp only [List.length_cons] at h
              omega
            rcases ih rest hrest n h' with ⟨m', id', tail', hp', hg', hdrop'⟩
            refine ⟨m', id', tail', hp', hg', ?_⟩
            have e : 2 * (n + 1) = 2 * n + 1 + 1 := by omega
            rw [e, List.drop_succ_cons, List.drop_succ_cons]
            exact hdrop'

/-- A line whose parsed object lacks a string-valued id field makes the whole
body construction panic. -/
theorem buildBody_bad_id (parse : String → Option JMap) (idField : String) :
    ∀ (chunk : List String) (d : String) (m : JMap),
      d ∈ chunk → parse d = some m → (mapGet m idField).bind asStr = none →
      buildBody parse idField chunk = none := by
  intro chunk
  induction chunk with
  | nil =>
    intro d m hd
    simp at hd
  | cons e es ih =>
    intro d m hd hp hbad
    rcases List.mem_cons.mp hd with hde | hdes
    · subst hde
      simp only [buildBody, hp]
      cases hg : mapGet m idField with
      | none => simp
      | some v =>
        rw [hg] at hbad
        simp only [Option.some_bind] at hbad
        simp [hbad]
    · have hrec := ih d m hdes hp hbad
      cases hpe : parse e with
      | none => simp [buildBody, hpe]
      | some me =>
        simp only [buildBody, hpe]
        cases hge : mapGet me idField with
        | none => simp
        | some ve =>
          simp only [hge]
          cases hse : asStr ve with
          | none => simp [hse]
          | some ide => simp [hse, hrec]

/-! ## Test fixture used by the witnesses -/

/-- Concrete parse function standing in for `serde_json::from_str` on three
sample NDJSON lines. -/
def sampleParse : String → Option JMap := fun s =>
  if s = "good" then some [("id", JsonVal.str "1"), ("t", JsonVal.str "x")]
  else if s = "noid" then some [("t", JsonVal.str "x")]
  else if s = "numid" then some [("id", JsonVal.num 7)]
  else none

/-! ## Claims C1, C2, C3, C9 -/

/-- C1: flushing a worker whose buffer holds `N ≥ 1` documents under a config
with `buffer_size = B ≥ 1` partitions the buffer into contiguous chunks of
size `min N B` — every chunk is nonempty of length at most `min N B`, all but
the last have length exactly `min N B`, and their concatenation in order is
the buffer — makes exactly `⌈N / B⌉` bulk submissions (one per chunk), and
each successfully built submission body holds exactly `2·k` entries for a
chunk of `k` documents (one action line and one source per document). -/
theorem c1_flush_chunk_discipline (parse : String → Option JMap)
    (idField : String) (B : Nat) (buffer : List String)
    (hB : 0 < B) (hN : 0 < buffer.length) :
    ∃ cs, close_chunks buffer B = some cs ∧
      cs.flatten = buffer ∧
      cs.length = ceilDiv buffer.length B ∧
      (∀ c ∈ cs, 0 < c.length ∧ c.length ≤ min buffer.length B) ∧
      (∀ c ∈ cs.dropLast, c.length = min buffer.length B) ∧
      (∀ c ∈ cs, ∀ body, buildBody parse idField c = some body →
        body.length = 2 * c.length) := by
  have hmin : 0 < min buffer.length B := by omega
  have hcs : close_chunks buffer B =
      some (chunksOf (min buffer.length B) buffer) := by
    simp only [close_chunks]
    rw [← Nat.min_def, if_neg (by omega)]
  refine ⟨_, hcs, chunksOf_flatten _ hmin _, ?_, chunksOf_mem _ hmin _,
    chunksOf_dropLast _ hmin _, ?_⟩
  · rw [chunksOf_length _ hmin]
    rcases le_or_lt buffer.length B with h | h
    · rw [Nat.min_eq_left h, ceilDiv_of_le _ _ hN (Nat.le_refl _),
        ceilDiv_of_le _ _ hN h]
    · rw [Nat.min_eq_right (Nat.le_of_lt h)]
  · intro c _ body hbody
    exact buildBody_length parse idField c body hbody

theorem c1_flush_chunk_discipline_witness :
    ∃ cs, close_chunks ["good", "good", "good"] 2 = some cs ∧
      cs.flatten = ["good", "good", "good"] ∧
      cs.length = ceilDiv (["good", "good", "good"] : List String).length 2 ∧
      (∀ c ∈ cs, 0 < c.length ∧
        c.length ≤ min (["good", "good", "good"] : List String).length 2) ∧
      (∀ c ∈ cs.dropLast,
        c.length = min (["good", "good", "good"] : List String).length 2) ∧
      (∀ c ∈ cs, ∀ body, buildBody sampleParse "id" c = some body →
        body.length = 2 * c.length) :=
  c1_flush_chunk_discipline sampleParse "id" 2 ["good", "good", "good"]
    (by decide) (by decide)

/-- C2: in every successfully built bulk body, document `i` is preceded
exactly by the action line `{"index":{"_id": id}}` (`actionLine id`) where
`id` is the string value of the document's `id_field_name` field; and a line
whose parsed object lacks the field, or whose value is not a JSON string,
panics the body construction, so such a line never appears in a successful
bulk submission. -/
theorem c2_action_line_and_fatal_id (parse : String → Option JMap)
    (idField : String) (chunk : List String) :
    (∀ body, buildBody parse idField chunk = some body →
      ∀ (i : Nat) (h : i < chunk.length),
        ∃ m id tail, parse (chunk.get ⟨i, h⟩) = some m ∧
          mapGet m idField = some (JsonVal.str id) ∧
          body.drop (2 * i) = actionLine id :: JsonVal.obj m :: tail) ∧
    (∀ d ∈ chunk, ∀ m, parse d = some m →
      (mapGet m idField).bind asStr = none →
      buildBody parse idField chunk = none) :=
  ⟨fun body hb i h => buildBody_drop parse idField chunk body hb i h,
   fun d hd m hp hbad => buildBody_bad_id parse idField chunk d m hd hp hbad⟩

theorem c2_action_line_and_fatal_id_witness :
    (∃ m id tail,
      sampleParse ((["good"] : List String).get ⟨0, by decide⟩) = some m ∧
      mapGet m "id" = some (JsonVal.str id) ∧
      ([actionLine "1",
        JsonVal.obj [("id", JsonVal.str "1"), ("t", JsonVal.str "x")]] :
          List JsonVal).drop (2 * 0) =
        actionLine id :: JsonVal.obj m :: tail) ∧
    buildBody sampleParse "id" ["noid"] = none ∧
    buildBody sampleParse "id" ["numid"] = none := by
  refine ⟨?_, ?_, ?_⟩
  · exact (c2_action_line_and_fatal_id sampleParse "id" ["good"]).1 _ rfl 0
      (by decide)
  · exact (c2_action_line_and_fatal_id sampleParse "id" ["noid"]).2 "noid"
      (by simp) [("t", JsonVal.str "x")] rfl rfl
  · exact (c2_action_line_and_fatal_id sampleParse "id" ["numid"]).2 "numid"
      (by simp) [("id", JsonVal.num 7)] rfl rfl

/-- C3: the claim says close on an empty buffer is a no-op that returns
normally with no HTTP call.  In the code, an empty buffer gives
`chunk_size = 0` and `self.buffer.chunks(0)` panics (`slice::chunks` asserts
a nonzero chunk size), aborting the worker before any HTTP call.  This
theorem evaluates the chunking phase at the failing input — the empty buffer,
for every `buffer_size`. -/
theorem c3_close_empty_buffer_panics (B : Nat) :
    close_chunks ([] : List String) B = none := by
  simp [close_chunks]

/-- C9: for every line of a successfully built bulk body, the source entry at
position `2·i + 1` is exactly `JsonVal.obj m`, the re-serialization of the
parsed map `m` of input line `i` — hence equal as a JSON value to the parse
of the original line (byte form and key order aside). -/
theorem c9_source_is_reserialized_parse (parse : String → Option JMap)
    (idField : String) (chunk : List String) :
    ∀ body, buildBody parse idField chunk = some body →
      ∀ (i : Nat) (h : i < chunk.length),
        ∃ m a tail, parse (chunk.get ⟨i, h⟩) = some m ∧
          body.drop (2 * i) = a :: JsonVal.obj m :: tail := by
  intro body hb i h
  rcases buildBody_drop parse idField chunk body hb i h with
    ⟨m, id, tail, hp, _, hdrop⟩
  exact ⟨m, actionLine id, tail, hp, hdrop⟩

theorem c9_source_is_reserialized_parse_witness :
    ∃ m a tail,
      sampleParse ((["good"] : List String).get ⟨0, by decide⟩) = some m ∧
      ([actionLine "1",
        JsonVal.obj [("id", JsonVal.str "1"), ("t", JsonVal.str "x")]] :
          List JsonVal).drop (2 * 0) = a :: JsonVal.obj m :: tail :=
  c9_source_is_reserialized_parse sampleParse "id" ["good"] _ rfl 0 (by decide)

/-! ## Claim C6: intra-file ordering

The futures created at `output.rs:88-91` are lazy: no part of `proceed_chunk`
runs until its future is polled, and `output.rs:93-95` polls them one at a
time to completion with `block_on`, in chunk order.  So the round-trip of
chunk `N` (send, then response) happens entirely before chunk `N+1` is sent. -/

/-- A bulk round-trip event inside `close`. -/
inductive CEvent where
  | send (c : List String)
  | recv (c : List String)

/-- The event order of the `block_on` loop at `output.rs:93-95`: for each
chunk, in chunk order, its send followed by its response. -/
def closeOrder : List (List String) → List CEvent
  | [] => []
  | c :: cs => CEvent.send c :: CEvent.recv c :: closeOrder cs

/-- The loop at `loader.rs:47-52`: `Ok` lines are appended to the buffer in
file order, `Err` lines are logged at warning and skipped. -/
def readLines (line_results : List (Option String)) : List String :=
  line_results.filterMap id

theorem closeOrder_drop :
    ∀ (cs : List (List String)) (n : Nat) (h : n < cs.length),
      ∃ tail, (closeOrder cs).drop (2 * n) =
        CEvent.send (cs.get ⟨n, h⟩) :: CEvent.recv (cs.get ⟨n, h⟩) :: tail := by
  intro cs
  induction cs with
  | nil =>
    intro n h
    simp at h
  | cons c cs ih =>
    intro n h
    cases n with
    | zero => exact ⟨closeOrder cs, rfl⟩
    | succ n =>
      have h' : n < cs.length := by
        simp only [List.length_cons] at h
        omega
      rcases ih n h' with ⟨tail, htail⟩
      refine ⟨tail, ?_⟩
      have e : 2 * (n + 1) = 2 * n + 1 + 1 := by omega
      rw [e]
      simp only [closeOrder, List.drop_succ_cons]
      exact htail

/-- C6: within a single input file, document order is preserved — the
concatenation of the submitted chunks, in submission order, equals the
sequence of lines successfully read from the file — and the close trace
places the send and the response of chunk `n` at positions `2n` and `2n+1`,
so the response of chunk `n` is observed before chunk `n+1` is sent (at
position `2n+2`). -/
theorem c6_order_preserved (B : Nat) (line_results : List (Option String))
    (hB : 0 < B) (hN : 0 < (readLines line_results).length) :
    ∃ cs, close_chunks (readLines line_results) B = some cs ∧
      cs.flatten = readLines line_results ∧
      (∀ (n : Nat) (h : n < cs.length),
        ∃ tail, (closeOrder cs).drop (2 * n) =
          CEvent.send (cs.get ⟨n, h⟩) :: CEvent.recv (cs.get ⟨n, h⟩) :: tail) := by
  have hmin : 0 < min (readLines line_results).length B := by omega
  have hcs : close_chunks (readLines line_results) B =
      some (chunksOf (min (readLines line_results).length B)
        (readLines line_results)) := by
    simp only [close_chunks]
    rw [← Nat.min_def, if_neg (by omega)]
  exact ⟨_, hcs, chunksOf_flatten _ hmin _,
    fun n h => closeOrder_drop _ n h⟩

theorem c6_order_preserved_witness :
    ∃ cs, close_chunks
        (readLines [some "good", none, some "good", some "good"]) 2 = some cs ∧
      cs.flatten = readLines [some "good", none, some "good", some "good"] ∧
      (∀ (n : Nat) (h : n < cs.length),
        ∃ tail, (closeOrder cs).drop (2 * n) =
          CEvent.send (cs.get ⟨n, h⟩) :: CEvent.recv (cs.get ⟨n, h⟩) :: tail) :=
  c6_order_preserved 2 [some "good", none, some "good", some "good"]
    (by decide) (by decide)

/-! ## Bulk response handling (`proceed_chunk`, `output.rs:227-257`) -/

/-- Per-item error logging (`output.rs:240-253`): when `item["index"]` is an
object that contains key `"error"` with an object value, the code unwraps
`_id`, `type` and `reason`; a missing one panics. -/
def logItem (item : JsonVal) : Option Unit :=
  match asObject (jsonIndex item "index") with
  | none => some ()
  | some index_obj =>
    if containsKey index_obj "error" then
      match asObject (jsonIndex (JsonVal.obj index_obj) "error") with
      | none => some ()
      | some err_obj =>
        match mapGet index_obj "_id", mapGet err_obj "type",
            mapGet err_obj "reason" with
        | some _, some _, some _ => some ()
        | _, _, _ => none
    else some ()

def logItems : List JsonVal → Option Unit
  | [] => some ()
  | it :: its =>
    match logItem it with
    | none => none
    | some _ => logItems its

/-- 2xx response-body handling (`output.rs:235-254`): unwrap the top-level
`errors` boolean (panic when absent or not a boolean); when `errors` is true,
unwrap the `items` array (panic when absent or not an array) and log each
item. -/
def handleBulkBody (response_body : JsonVal) : Option Unit :=
  match asBool (jsonIndex response_body "errors") with
  | none => none
  | some errors =>
    if errors then
      match asArray (jsonIndex response_body "items") with
      | none => none
      | some items => logItems items
    else some ()

/-- C10: on a 2xx bulk response the worker completes the chunk without error
only if the response body has a top-level boolean `errors` field and, when
that field is `true`, an array `items` field; and a 2xx body whose `errors`
field is absent or not a boolean is a fatal (panicking) error for the
worker. -/
theorem c10_errors_field_required (response_body : JsonVal) :
    ((handleBulkBody response_body).isSome = true →
      (∃ b, jsonIndex response_body "errors" = JsonVal.bool b) ∧
      (jsonIndex response_body "errors" = JsonVal.bool true →
        ∃ items, jsonIndex response_body "items" = JsonVal.arr items)) ∧
    (asBool (jsonIndex response_body "errors") = none →
      handleBulkBody response_body = none) := by
  constructor
  · intro hs
    cases hb : asBool (jsonIndex response_body "errors") with
    | none => simp [handleBulkBody, hb] at hs
    | some b =>
      have hv := asBool_eq hb
      refine ⟨⟨b, hv⟩, ?_⟩
      intro htrue
      have hbtrue : b = true := by
        have := hv.symm.trans htrue
        injection this
      subst hbtrue
      simp only [handleBulkBody, hb, if_true] at hs
      cases ha : asArray (jsonIndex response_body "items") with
      | none => rw [ha] at hs; simp at hs
      | some items => exact ⟨items, asArray_eq ha⟩
  · intro hnone
    simp [handleBulkBody, hnone]

theorem c10_errors_field_required_witness :
    ((∃ b, jsonIndex (JsonVal.obj [("errors", JsonVal.bool false)]) "errors" =
        JsonVal.bool b) ∧
      (jsonIndex (JsonVal.obj [("errors", JsonVal.bool false)]) "errors" =
          JsonVal.bool true →
        ∃ items, jsonIndex (JsonVal.obj [("errors", JsonVal.bool false)])
          "items" = JsonVal.arr items)) ∧
    handleBulkBody (JsonVal.obj [("took", JsonVal.num 3)]) = none := by
  constructor
  · exact (c10_errors_field_required
      (JsonVal.obj [("errors", JsonVal.bool false)])).1 rfl
  · exact (c10_errors_field_required
      (JsonVal.obj [("took", JsonVal.num 3)])).2 rfl

/-! ## Workers and the run (`loader.rs`, `main.rs`) -/

/-- Outcome of one bulk HTTP submission as seen by `proceed_chunk`:
a transport error (`send().await` returns `Err`), or a response with a
status (2xx or not) and a JSON body. -/
inductive SinkResp where
  | transportErr
  | resp (status_ok : Bool) (body : JsonVal)

/-- `proceed_chunk` (`output.rs:204-258`): build the bulk body (parse and id
panics modelled by `buildBody`), send the chunk; a transport error becomes an
`Err` on which the caller `close` panics via `expect`, a non-2xx status
panics (`output.rs:232`), and a 2xx response has its body inspected by
`handleBulkBody`.  All panics are `none`. -/
def proceed_chunk (parse : String → Option JMap) (idField : String)
    (sink : List String → SinkResp) (chunk : List String) : Option Unit :=
  match buildBody parse idField chunk with
  | none => none
  | some _ =>
    match sink chunk with
    | .transportErr => none
    | .resp status_ok body => if status_ok then handleBulkBody body else none

/-- The `block_on` loop of `close` (`output.rs:93-95`): chunks are driven to
completion in order; the first failure panics the worker. -/
def runChunks (parse : String → Option JMap) (idField : String)
    (sink : List String → SinkResp) : List (List String) → Option Unit
  | [] => some ()
  | c :: cs =>
    match proceed_chunk parse idField sink c with
    | none => none
    | some _ => runChunks parse idField sink cs

/-- `ElasticsearchOutput::close` (`output.rs:80-97`), end to end. -/
def close (parse : String → Option JMap) (idField : String)
    (buffer_size : Nat) (sink : List String → SinkResp)
    (buffer : List String) : Option Unit :=
  match close_chunks buffer buffer_size with
  | none => none
  | some cs => runChunks parse idField sink cs

/-- The file-system view a worker gets of its input file: either the file
cannot be opened, or it yields a list of line-read results
(`some line` for `Ok`, `none` for `Err`). -/
inductive FileEnv where
  | unopenable
  | readable (line_results : List (Option String))

/-- `Loader::load_file` (`loader.rs:44-56`): the file is opened with
`unwrap`, so an unopenable file panics the worker; each `Ok` line is buffered
in order (`add_document`), then `close` runs, whose failures also panic the
worker. -/
def load_file (parse : String → Option JMap) (idField : String)
    (buffer_size : Nat) (sink : List String → SinkResp) :
    FileEnv → Option Unit
  | .unopenable => none
  | .readable rs => close parse idField buffer_size sink (readLines rs)

/-- Outcome of the one-time index bootstrap (`output.rs:66-78`):
the exists probe returns 200 (`found`), returns 404 after which index
creation succeeds or fails (`notFound createOk`), or itself fails
(`probeErr`, a non-{200,404} status or transport error). -/
inductive ProbeOutcome where
  | found
  | notFound (createOk : Bool)
  | probeErr

/-- `Loader::load` (`loader.rs:22-37`) together with `main` (`main.rs`):
initialization runs first and synchronously (its `expect`s panic the run on
failure); then one worker per file runs under `rayon` `par_iter`.  A panic
inside a parallel worker is resumed on the calling thread when the parallel
iterator joins, so a single worker panic aborts the whole run (`none` here;
the process exits with a non-zero status).  `load` itself otherwise always
returns `Ok(())`, which `main` maps to exit code 0. -/
def load_run (parse : String → Option JMap) (idField : String)
    (buffer_size : Nat) (sink : List String → SinkResp)
    (probe : ProbeOutcome) (files : List FileEnv) : Option Unit :=
  match probe with
  | .probeErr => none
  | .notFound false => none
  | .notFound true =>
    if files.all
        (fun f => (load_file parse idField buffer_size sink f).isSome)
    then some () else none
  | .found =>
    if files.all
        (fun f => (load_file parse idField buffer_size sink f).isSome)
    then some () else none

/-- A sink that always answers 2xx with body `{"errors": false}`. -/
def sinkOK : List String → SinkResp :=
  fun _ => SinkResp.resp true (JsonVal.obj [("errors", JsonVal.bool false)])

/-- C4: the claim promises that a failure inside one worker (file cannot be
opened, or bulk submission fails) is confined to that file and the run exits
0.  In the code, `File::open(filepath).unwrap()` (`loader.rs:47`) and
`expect("Error on task...")` (`output.rs:94`) panic, and the panic propagates
through `rayon` par_iter and aborts the whole run with a non-zero exit.  This
theorem evaluates the code at the failing input: two files, the first
unopenable, the second fine on its own — yet the run aborts. -/
theorem c4_worker_panic_aborts_run :
    load_run sampleParse "id" 2 sinkOK ProbeOutcome.found
      [FileEnv.unopenable, FileEnv.readable [some "good"]] = none ∧
    load_file sampleParse "id" 2 sinkOK
      (FileEnv.readable [some "good"]) = some () := by
  constructor
  · rfl
  · rfl

/-! ## Claim C5: one-time initialization -/

/-- Run events relevant to initialization ordering. -/
inductive REvent where
  | existsProbe
  | createIndex
  | workerClient
  | workerBulk
deriving DecidableEq

/-- Events of `ElasticsearchOutput::initialize` (`output.rs:66-78`) as called
once from `Loader::load` (`loader.rs:23,39-42`): a single exists probe, then
an index creation exactly when the probe answered 404. -/
def initEvents : ProbeOutcome → List REvent
  | .found => [.existsProbe]
  | .notFound _ => [.existsProbe, .createIndex]
  | .probeErr => [.existsProbe]

def isWorkerEvent : REvent → Bool
  | .workerClient => true
  | .workerBulk => true
  | _ => false

def countEv (e : REvent) : List REvent → Nat
  | [] => 0
  | x :: xs => (if x = e then 1 else 0) + countEv e xs

/-- The full run trace: `load` performs initialization synchronously before
the parallel fan-out, so the trace is the initialization events followed by
some interleaving `workerPhase` of the worker events (client construction and
bulk submissions). -/
def runTrace (probe : ProbeOutcome) (workerPhase : List REvent) :
    List REvent :=
  initEvents probe ++ workerPhase

theorem countEv_append (e : REvent) :
    ∀ (l₁ l₂ : List REvent),
      countEv e (l₁ ++ l₂) = countEv e l₁ + countEv e l₂ := by
  intro l₁ l₂
  induction l₁ with
  | nil => simp [countEv]
  | cons x xs ih =>
    show (if x = e then 1 else 0) + countEv e (xs ++ l₂) =
      ((if x = e then 1 else 0) + countEv e xs) + countEv e l₂
    rw [ih]
    omega

theorem countEv_eq_zero (e : REvent) :
    ∀ (l : List REvent), (∀ x ∈ l, x ≠ e) → countEv e l = 0 := by
  intro l
  induction l with
  | nil => intro _; rfl
  | cons x xs ih =>
    intro h
    have hx : x ≠ e := h x (by simp)
    simp only [countEv, if_neg hx, ih (fun y hy => h y (by simp [hy]))]

theorem initEvents_not_worker (probe : ProbeOutcome) :
    ∀ e ∈ initEvents probe, isWorkerEvent e = false := by
  intro e he
  cases probe with
  | found =>
    simp only [initEvents, List.mem_singleton] at he
    subst he; rfl
  | probeErr =>
    simp only [initEvents, List.mem_singleton] at he
    subst he; rfl
  | notFound c =>
    simp only [initEvents, List.mem_cons, List.not_mem_nil, or_false] at he
    rcases he with he | he <;> (subst he; rfl)

theorem get_append_cases :
    ∀ (L M : List REvent) (i : Nat) (hi : i < (L ++ M).length),
      ((L ++ M).get ⟨i, hi⟩ ∈ L ∧ i < L.length) ∨
      ((L ++ M).get ⟨i, hi⟩ ∈ M ∧ L.length ≤ i) := by
  intro L
  induction L with
  | nil =>
    intro M i hi
    right
    exact ⟨List.get_mem M i hi, Nat.zero_le i⟩
  | cons a L ih =>
    intro M i hi
    cases i with
    | zero =>
      left
      exact ⟨List.mem_cons_self a L, by simp⟩
    | succ n =>
      have hn : n < (L ++ M).length := by
        simp only [List.cons_append, List.length_cons] at hi
        omega
      rcases ih M n hn with ⟨hm, hlt⟩ | ⟨hm, hle⟩
      · left
        refine ⟨List.mem_cons_of_mem a hm, ?_⟩
        simp only [List.length_cons]
        omega
      · right
        refine ⟨hm, ?_⟩
        simp only [List.length_cons]
        omega

/-- C5: in every run, exactly one index-existence probe is made and at most
one index-creation request is made, regardless of the number of input files;
if the probe reports the index exists, no create request is issued; and every
create-index event precedes every worker event (Sink Client construction or
bulk submission) in the trace, for every interleaving of worker events. -/
theorem c5_single_initialization (probe : ProbeOutcome)
    (workerPhase : List REvent)
    (hw : ∀ e ∈ workerPhase, isWorkerEvent e = true) :
    countEv REvent.existsProbe (runTrace probe workerPhase) = 1 ∧
    countEv REvent.createIndex (runTrace probe workerPhase) ≤ 1 ∧
    (probe = ProbeOutcome.found →
      countEv REvent.createIndex (runTrace probe workerPhase) = 0) ∧
    (∀ (i j : Nat) (hi : i < (runTrace probe workerPhase).length)
        (hj : j < (runTrace probe workerPhase).length),
      (runTrace probe workerPhase).get ⟨i, hi⟩ = REvent.createIndex →
      isWorkerEvent ((runTrace probe workerPhase).get ⟨j, hj⟩) = true →
      i < j) := by
  have hprobe0 : countEv REvent.existsProbe workerPhase = 0 :=
    countEv_eq_zero _ _ (fun x hx hxe => by
      have := hw x hx
      rw [hxe] at this
      simp [isWorkerEvent] at this)
  have hcreate0 : countEv REvent.createIndex workerPhase = 0 :=
    countEv_eq_zero _ _ (fun x hx hxe => by
      have := hw x hx
      rw [hxe] at this
      simp [isWorkerEvent] at this)
  refine ⟨?_, ?_, ?_, ?_⟩
  · rw [runTrace, countEv_append, hprobe0]
    cases probe <;> rfl
  · rw [runTrace, countEv_append, hcreate0]
    cases probe <;> simp [initEvents, countEv]
  · intro hfound
    subst hfound
    rw [runTrace, countEv_append, hcreate0]
    rfl
  · intro i j hi hj hci hwj
    have hci' : (initEvents probe ++ workerPhase).get ⟨i, hi⟩ =
        REvent.createIndex := hci
    have hwj' : isWorkerEvent
        ((initEvents probe ++ workerPhase).get ⟨j, hj⟩) = true := hwj
    rcases get_append_cases (initEvents probe) workerPhase i hi with
      ⟨_, hiL⟩ | ⟨hmem, _⟩
    · rcases get_append_cases (initEvents probe) workerPhase j hj with
        ⟨hjmem, _⟩ | ⟨_, hjL⟩
      · have hfalse := initEvents_not_worker probe _ hjmem
        rw [hwj'] at hfalse
        cases hfalse
      · omega
    · have htrue := hw _ hmem
      rw [hci'] at htrue
      simp [isWorkerEvent] at htrue

theorem c5_single_initialization_witness :
    countEv REvent.existsProbe
      (runTrace ProbeOutcome.found [REvent.workerClient, REvent.workerBulk])
      = 1 ∧
    countEv REvent.createIndex
      (runTrace ProbeOutcome.found [REvent.workerClient, REvent.workerBulk])
      ≤ 1 ∧
    (ProbeOutcome.found = ProbeOutcome.found →
      countEv REvent.createIndex
        (runTrace ProbeOutcome.found
          [REvent.workerClient, REvent.workerBulk]) = 0) ∧
    (∀ (i j : Nat)
        (hi : i < (runTrace ProbeOutcome.found
          [REvent.workerClient, REvent.workerBulk]).length)
        (hj : j < (runTrace ProbeOutcome.found
          [REvent.workerClient, REvent.workerBulk]).length),
      (runTrace ProbeOutcome.found
        [REvent.workerClient, REvent.workerBulk]).get ⟨i, hi⟩ =
          REvent.createIndex →
      isWorkerEvent ((runTrace ProbeOutcome.found
        [REvent.workerClient, REvent.workerBulk]).get ⟨j, hj⟩) = true →
      i < j) :=
  c5_single_initialization ProbeOutcome.found
    [REvent.workerClient, REvent.workerBulk] (by decide)

/-! ## Config loading (`EsConfig`, `output.rs:13-32`)

`EsConfig::new` reads a YAML file and panics (`expect`) on any
deserialization error.  The decoder below models serde derive on the
`EsConfig` struct over a YAML mapping: the five non-`Option` fields (`url`,
`buffer_size`, `index_name`, `schema_file`, `id_field_name`) are required;
the three `Option<String>` fields (`cloud_id`, `user`, `password`) are `None`
when absent or null; `buffer_size: usize` accepts exactly non-negative
integer scalars (so negative, fractional or non-numeric values are
type-mismatch errors, while `0` deserializes fine). -/

/-- YAML scalar values as relevant to `EsConfig` deserialization. -/
inductive YamlVal where
  | null
  | bool (b : Bool)
  | int (n : Int)
  | str (s : String)

/-- The `EsConfig` struct (`output.rs:13-23`). -/
structure EsConfig where
  url : String
  buffer_size : Nat
  index_name : String
  schema_file : String
  id_field_name : String
  cloud_id : Option String
  user : Option String
  password : Option String

def yamlGet (fields : List (String × YamlVal)) (k : String) : Option YamlVal :=
  (fields.find? (fun p => p.1 = k)).map (fun p => p.2)

def decodeString : YamlVal → Option String
  | .str s => some s
  | _ => none

/-- serde deserialization of `usize`: any non-negative integer scalar. -/
def decodeUsize : YamlVal → Option Nat
  | .int n => if 0 ≤ n then some n.toNat else none
  | _ => none

def decodeOptString (fields : List (String × YamlVal)) (k : String) :
    Option (Option String) :=
  match yamlGet fields k with
  | none => some none
  | some .null => some none
  | some v => (decodeString v).map some

/-- serde-derive deserialization of `EsConfig` from a YAML mapping
(`EsConfig::new`, `output.rs:25-32`); `none` is the `expect` panic at
startup. -/
def decodeEsConfig (fields : List (String × YamlVal)) : Option EsConfig := do
  let u ← yamlGet fields "url" >>= decodeString
  let bs ← yamlGet fields "buffer_size" >>= decodeUsize
  let iname ← yamlGet fields "index_name" >>= decodeString
  let sfile ← yamlGet fields "schema_file" >>= decodeString
  let idf ← yamlGet fields "id_field_name" >>= decodeString
  let cid ← decodeOptString fields "cloud_id"
  let usr ← decodeOptString fields "user"
  let pw ← decodeOptString fields "password"
  some ⟨u, bs, iname, sfile, idf, cid, usr, pw⟩

/-- A complete config whose `buffer_size` is `0` — not a positive integer. -/
def cfgZeroBuffer : List (String × YamlVal) :=
  [("url", .str "http://localhost:9200"), ("buffer_size", .int 0),
   ("index_name", .str "docs"), ("schema_file", .str "schema.json"),
   ("id_field_name", .str "id")]

/-- C7 counterexample: the claim says every config whose `buffer_size` is not
a positive integer fails fatally at startup; but `buffer_size: 0`
deserializes fine into `usize`, so this config loads successfully with
`buffer_size = 0`. -/
theorem c7_counterexample_zero_loads :
    (decodeEsConfig cfgZeroBuffer).isSome = true ∧
    Option.map (fun c => c.buffer_size) (decodeEsConfig cfgZeroBuffer) =
      some 0 := by
  constructor
  · rfl
  · rfl

/-- C7 amended: a configuration whose `buffer_size` value is absent or does
not deserialize as a `usize` (negative, non-integer) fails fatally at
startup; `0`, although not positive, is accepted at load time. -/
theorem c7_amended_bad_buffer_size_fails (fields : List (String × YamlVal))
    (h : yamlGet fields "buffer_size" >>= decodeUsize = none) :
    decodeEsConfig fields = none := by
  unfold decodeEsConfig
  cases hu : yamlGet fields "url" >>= decodeString with
  | none => simp [hu]
  | some u => simp [hu, h]

/-- A config whose `buffer_size` is a non-integer scalar. -/
def cfgStringBuffer : List (String × YamlVal) :=
  [("url", .str "http://localhost:9200"), ("buffer_size", .str "many"),
   ("index_name", .str "docs"), ("schema_file", .str "schema.json"),
   ("id_field_name", .str "id")]

theorem c7_amended_bad_buffer_size_fails_witness :
    (yamlGet cfgStringBuffer "buffer_size" >>= decodeUsize = none) ∧
    decodeEsConfig cfgStringBuffer = none :=
  ⟨rfl, c7_amended_bad_buffer_size_fails cfgStringBuffer rfl⟩

/-- A config with `cloud_id` (and credentials) set but no `url` key. -/
def cfgCloudNoUrl : List (String × YamlVal) :=
  [("buffer_size", .int 100), ("index_name", .str "docs"),
   ("schema_file", .str "schema.json"), ("id_field_name", .str "id"),
   ("cloud_id", .str "deploy:abcdef"), ("user", .str "elastic"),
   ("password", .str "secret")]

/-- C8 counterexample: the claim says that with `cloud_id` set the `url` key
may be omitted and the configuration still loads; but `url` is a required
(non-`Option`) `String` field of `EsConfig`, so this config — `cloud_id` set,
`url` omitted — fails to load. -/
theorem c8_counterexample_url_still_required :
    yamlGet cfgCloudNoUrl "cloud_id" = some (YamlVal.str "deploy:abcdef") ∧
    decodeEsConfig cfgCloudNoUrl = none := by
  constructor
  · rfl
  · rfl

/-- C8 amended: the `url` key is required even when `cloud_id` is set (its
value is simply unused in cloud mode): any configuration without a `url` key
fails to load. -/
theorem c8_amended_url_always_required (fields : List (String × YamlVal))
    (h : yamlGet fields "url" = none) :
    decodeEsConfig fields = none := by
  unfold decodeEsConfig
  simp [h]

theorem c8_amended_url_always_required_witness :
    yamlGet cfgCloudNoUrl "url" = none ∧
    decodeEsConfig cfgCloudNoUrl = none :=
  ⟨rfl, c8_amended_url_always_required cfgCloudNoUrl rfl⟩

end Bulk2Es
